import Mathlib

set_option maxHeartbeats 1000000

/-!
Verification of the aicommit repository: a shallow embedding of the
response normalizer and generation pipeline of src/run.ts and of the
configuration store (readConfigFile, cleanUpTemplates, setConfigs).
Strings are modelled as `List Char`; JavaScript regular expressions are
translated into explicit character-list parsers.
-/

/-- ASCII whitespace class used by the JavaScript regex class and by
String.prototype.trim (the repository only handles ASCII whitespace;
the exotic Unicode members of the JS class are outside the model). -/
def isJsWs (c : Char) : Bool :=
  c = ' ' || c = '\t' || c = '\n' || c = '\r' || c = '\x0b' || c = '\x0c'

/-- The apostrophe character. -/
def aposCh : Char := Char.ofNat 39

/-- The backtick character. -/
def backtickCh : Char := Char.ofNat 96

/-- Quote characters stripped by the cleanup regex in run.ts line 36:
double quote, single quote, backtick. -/
def isQuoteCh (c : Char) : Bool :=
  c = '"' || c = aposCh || c = backtickCh

/-- Digit class of the JavaScript regex. -/
def isDig (c : Char) : Bool :=
  48 ≤ c.toNat && c.toNat ≤ 57

/-- Drop the longest suffix whose characters satisfy `p`. -/
def dropRightWhile (p : Char → Bool) (l : List Char) : List Char :=
  (l.reverse.dropWhile p).reverse

/-- Model of String.prototype.trim as called on each line in run.ts
line 14 and on captured messages in line 36. -/
def jsTrim (l : List Char) : List Char :=
  dropRightWhile isJsWs (l.dropWhile isJsWs)

/-- Model of the global regex replace in run.ts line 36 that deletes a
leading run and a trailing run of quote characters. -/
def stripQuoteRuns (l : List Char) : List Char :=
  dropRightWhile isQuoteCh (l.dropWhile isQuoteCh)

/-- The per-message cleanup of run.ts line 36: strip surrounding quote
runs, then trim. -/
def cleanMessage (l : List Char) : List Char :=
  jsTrim (stripQuoteRuns l)

/-- Model of raw.replaceAll of the CRLF pair by a newline
(run.ts line 12): a left-to-right, non-overlapping scan. -/
def crlfToLf : List Char → List Char
  | [] => []
  | [c] => [c]
  | c1 :: c2 :: rest =>
    if c1 = '\r' then
      if c2 = '\n' then '\n' :: crlfToLf rest
      else c1 :: crlfToLf (c2 :: rest)
    else c1 :: crlfToLf (c2 :: rest)

/-- Model of String.prototype.split on the newline character
(run.ts line 13); the empty string splits into one empty line. -/
def splitNl : List Char → List (List Char)
  | [] => [[]]
  | c :: rest =>
    if c = '\n' then [] :: splitNl rest
    else
      match splitNl rest with
      | a :: as => (c :: a) :: as
      | [] => [[c]]

/-- Model of Array.prototype.join with a newline separator
(run.ts line 168). -/
def joinLines : List (List Char) → List Char
  | [] => []
  | [l] => l
  | l :: l2 :: ls => l ++ '\n' :: joinLines (l2 :: ls)

/-- The code-fence delimiter characters. -/
def fenceChars : List Char := "```".data

/-- The filter of run.ts line 16: a line is discarded when it equals or
starts with the code-fence delimiter (startsWith subsumes equality). -/
def isFence (l : List Char) : Bool :=
  fenceChars.isPrefixOf l

/-- The numbered-item regex of run.ts line 20, digits then optional
whitespace then a dot or closing parenthesis then optional whitespace
then the captured content.  The final branch reproduces the regex
backtracking on an all-whitespace remainder (unreachable on the trimmed
lines the source feeds it). -/
def sepCapture : List Char → Option (List Char)
  | [] => none
  | sep :: r =>
    if sep = '.' || sep = ')' then
      if !(r.dropWhile isJsWs).isEmpty then some (r.dropWhile isJsWs)
      else if r.isEmpty then none
      else some [r.getLastD ' ']
    else none

def numberedCapture (l : List Char) : Option (List Char) :=
  if (l.takeWhile isDig).isEmpty then none
  else sepCapture ((l.dropWhile isDig).dropWhile isJsWs)

/-- The bulleted-item regex of run.ts line 28: a dash or asterisk, at
least one whitespace character, then the captured content.  The final
branch again reproduces the backtracking on an all-whitespace
remainder. -/
def bulletCapture : List Char → Option (List Char)
  | [] => none
  | mk :: r =>
    if mk = '-' || mk = '*' then
      match r with
      | [] => none
      | w :: rest =>
        if isJsWs w then
          if !((w :: rest).dropWhile isJsWs).isEmpty then
            some ((w :: rest).dropWhile isJsWs)
          else if rest.isEmpty then none
          else some [(w :: rest).getLastD ' ']
        else none
    else none

/-- The line preprocessing of run.ts lines 11 to 16: normalize line
endings, split, trim, drop blank lines, drop code-fence lines. -/
def linesOf (raw : List Char) : List (List Char) :=
  (((splitNl (crlfToLf raw)).map jsTrim).filter
      (fun l => !l.isEmpty)).filter (fun l => !isFence l)

/-- The numbered extraction pass (run.ts lines 18 to 23). -/
def fromNumberedOf (raw : List Char) : List (List Char) :=
  (linesOf raw).filterMap numberedCapture

/-- The bulleted extraction pass (run.ts lines 25 to 32). -/
def fromBulletsOf (raw : List Char) : List (List Char) :=
  (linesOf raw).filterMap bulletCapture

/-- The candidate selection of run.ts line 34: numbered items if any
were found, bulleted items otherwise. -/
def candidatesOf (raw : List Char) : List (List Char) :=
  if (fromNumberedOf raw).isEmpty then fromBulletsOf raw
  else fromNumberedOf raw

/-- The response normalizer of run.ts lines 10 to 38. -/
def normalizeCommitSuggestions (raw : List Char) : List (List Char) :=
  ((candidatesOf raw).map cleanMessage).filter (fun m => !m.isEmpty)

/-- The character of a decimal digit. -/
def digitChar : Nat → Char
  | 0 => '0' | 1 => '1' | 2 => '2' | 3 => '3' | 4 => '4'
  | 5 => '5' | 6 => '6' | 7 => '7' | 8 => '8' | _ => '9'

/-- Core of the decimal rendering, structurally recursive on a fuel
bound (mirrors the shape of Nat.toDigitsCore) so that it reduces by
iota. -/
def natDigitsCore : Nat → Nat → List Char → List Char
  | 0, _, acc => acc
  | fuel + 1, n, acc =>
    if n < 10 then digitChar n :: acc
    else natDigitsCore fuel (n / 10) (digitChar (n % 10) :: acc)

/-- Decimal rendering of a natural number, as produced by the JS
template literal interpolation of the one-based index in
run.ts line 168. -/
def natDigits (n : Nat) : List Char := natDigitsCore (n + 1) n []

/-- The renumbered output lines of run.ts line 168: index dot space
message, indices one-based from `i + 1`. -/
def numberLines : Nat → List (List Char) → List (List Char)
  | _, [] => []
  | i, m :: ms => (natDigits (i + 1) ++ '.' :: ' ' :: m) :: numberLines (i + 1) ms

/-- The final stdout payload of run.ts line 168: renumbered lines
joined by newlines. -/
def joinNumbered (ms : List (List Char)) : List Char :=
  joinLines (numberLines 0 ms)

/-- The placeholder token of the template (run.ts line 118). -/
def diffToken : List Char := "\x7b\x7bdiff\x7d\x7d".data

/-- Split a string at the first occurrence of `pat`: the part before
the match and the part after it, or none when `pat` does not occur.
Models the first-occurrence search of String.prototype.replace with a
string pattern. -/
def splitAtFirst (pat : List Char) : List Char → Option (List Char × List Char)
  | [] => if pat.isEmpty then some ([], []) else none
  | c :: rest =>
    if pat.isPrefixOf (c :: rest) then some ([], (c :: rest).drop pat.length)
    else
      match splitAtFirst pat rest with
      | some (b, a) => some (c :: b, a)
      | none => none

/-- GetSubstitution of the ECMAScript specification for a string
search value: in the replacement string the dollar patterns for a
literal dollar, the matched substring, the preceding portion and the
following portion are interpreted; every other character is copied.
Digit and named references are inert for a string search value. -/
def getSubstitution (matched before after : List Char) : List Char → List Char
  | [] => []
  | [c] => [c]
  | c :: d :: r =>
    if c = '$' then
      if d = '$' then '$' :: getSubstitution matched before after r
      else if d = '&' then matched ++ getSubstitution matched before after r
      else if d = backtickCh then before ++ getSubstitution matched before after r
      else if d = aposCh then after ++ getSubstitution matched before after r
      else '$' :: getSubstitution matched before after (d :: r)
    else c :: getSubstitution matched before after (d :: r)

/-- Model of String.prototype.replace with a string search value
(run.ts line 118): replace the first occurrence, processing the
replacement through GetSubstitution. -/
def jsStringReplace (s pat repl : List Char) : List Char :=
  match splitAtFirst pat s with
  | none => s
  | some (b, a) => b ++ getSubstitution pat b a repl ++ a

/-- Modelled from the spec: the claimed rendering rule, in which
only the first occurrence of the placeholder is replaced and the diff
text is inserted verbatim with no transformation. -/
def replaceFirstVerbatim (s pat repl : List Char) : List Char :=
  match splitAtFirst pat s with
  | none => s
  | some (b, a) => b ++ repl ++ a

/-- The configuration record of config.ts (interface Config), together
with the unknown top-level fields that the spread merge of
readConfigFile preserves from the persisted file (their serialized
values are modelled as strings). -/
structure Config where
  OPENAI_API_KEY : String
  OPENAI_API_BASE : String
  model : String
  templates : List (String × String)
  extras : List (String × String)
deriving DecidableEq

/-- The parsed persisted record: each known top-level field may be
absent; unknown fields ride along. -/
structure PersistedRecord where
  OPENAI_API_KEY : Option String
  OPENAI_API_BASE : Option String
  model : Option String
  templates : Option (List (String × String))
  extras : List (String × String)
deriving DecidableEq

/-- The three environment variables consulted by readConfigFile;
none stands for an unset variable. -/
structure EnvVars where
  OPENAI_API_KEY : Option String
  OPENAI_API_BASE : Option String
  OPENAI_MODEL : Option String
deriving DecidableEq

/-- Placeholder for path.join(os.homedir(), ".bunnai-template"),
the install-time default template path of config.ts line 76. -/
def defaultTemplatePath : String := "~/.bunnai-template"

/-- DEFAULT_CONFIG of config.ts lines 71 to 78. -/
def DEFAULT_CONFIG : Config :=
  { OPENAI_API_KEY := ""
    OPENAI_API_BASE := "https://api.openai.com/v1"
    model := "gpt-4-0125-preview"
    templates := [("default", defaultTemplatePath)]
    extras := [] }

/-- The object spread of config.ts lines 87 to 90: fields present in
the file override the defaults, absent fields keep them, unknown
fields are preserved. -/
def mergeOver (f : PersistedRecord) : Config :=
  { OPENAI_API_KEY := f.OPENAI_API_KEY.getD DEFAULT_CONFIG.OPENAI_API_KEY
    OPENAI_API_BASE := f.OPENAI_API_BASE.getD DEFAULT_CONFIG.OPENAI_API_BASE
    model := f.model.getD DEFAULT_CONFIG.model
    templates := f.templates.getD DEFAULT_CONFIG.templates
    extras := f.extras }

/-- JS truthiness of an environment variable: set and non-empty. -/
def envTruthy : Option String → Bool
  | none => false
  | some s => !s.isEmpty

/-- The api-key overlay of config.ts lines 94 to 96. -/
def overlayKey (c : Config) (e : EnvVars) : Config :=
  if envTruthy e.OPENAI_API_KEY then
    { c with OPENAI_API_KEY := e.OPENAI_API_KEY.getD "" }
  else c

/-- The api-base overlay of config.ts lines 97 to 99. -/
def overlayBase (c : Config) (e : EnvVars) : Config :=
  if envTruthy e.OPENAI_API_BASE then
    { c with OPENAI_API_BASE := e.OPENAI_API_BASE.getD "" }
  else c

/-- The model overlay of config.ts lines 100 to 102. -/
def overlayModel (c : Config) (e : EnvVars) : Config :=
  if envTruthy e.OPENAI_MODEL then
    { c with model := e.OPENAI_MODEL.getD "" }
  else c

/-- The environment overlay of config.ts lines 93 to 102. -/
def overlayEnv (c : Config) (e : EnvVars) : Config :=
  overlayModel (overlayBase (overlayKey c e) e) e

/-- readConfigFile of config.ts lines 80 to 105, as a function of the
persisted file state (none when the file is absent) and the
environment. -/
def readConfigFile (file : Option PersistedRecord) (env : EnvVars) : Config :=
  let config := match file with
    | none => DEFAULT_CONFIG
    | some f => mergeOver f
  overlayEnv config env

/-- cleanUpTemplates of config.ts lines 117 to 126, as a function of
the filesystem existence oracle: every template entry whose file does
not exist is deleted. -/
def cleanUpTemplates (c : Config) (fexists : String → Bool) : Config :=
  { c with templates := c.templates.filter (fun kv => fexists kv.2) }

/-- Object.keys(DEFAULT_CONFIG), in declaration order
(config.ts line 108). -/
def configKeys : List String :=
  ["OPENAI_API_KEY", "OPENAI_API_BASE", "model", "templates"]

/-- validateKeys of config.ts lines 107 to 115, as a boolean: true when
every key is a known top-level field (the source throws on the first
unknown key). -/
def validateKeys (keys : List String) : Bool :=
  keys.all (fun k => configKeys.contains k)

/-- An update value: a string for the three scalar fields, a mapping
for templates. -/
inductive FieldVal where
  | str (s : String)
  | map (m : List (String × String))
deriving DecidableEq

/-- One assignment of the update loop of config.ts lines 135 to 138.
Assignments whose value type does not match the field (excluded by the
TypeScript signature of setConfigs) leave the field unchanged. -/
def setField (c : Config) (k : String) (v : FieldVal) : Config :=
  if k = "OPENAI_API_KEY" then
    match v with
    | .str s => { c with OPENAI_API_KEY := s }
    | _ => c
  else if k = "OPENAI_API_BASE" then
    match v with
    | .str s => { c with OPENAI_API_BASE := s }
    | _ => c
  else if k = "model" then
    match v with
    | .str s => { c with model := s }
    | _ => c
  else if k = "templates" then
    match v with
    | .map m => { c with templates := m }
    | _ => c
  else c

/-- JSON.stringify(config) of config.ts line 140: the written record
carries every field of the in-memory configuration. -/
def configToRecord (c : Config) : PersistedRecord :=
  { OPENAI_API_KEY := some c.OPENAI_API_KEY
    OPENAI_API_BASE := some c.OPENAI_API_BASE
    model := some c.model
    templates := some c.templates
    extras := c.extras }

/-- setConfigs of config.ts lines 128 to 141: re-load the current
configuration (defaults, persisted record, environment overlay),
validate the update keys, apply the updates in order and overwrite the
whole file; a validation failure raises before the write. -/
def setConfigs (kvs : List (String × FieldVal)) (file : Option PersistedRecord)
    (env : EnvVars) : Except String (Option PersistedRecord) :=
  let config := readConfigFile file env
  if validateKeys (kvs.map Prod.fst) then
    Except.ok (some (configToRecord
      (kvs.foldl (fun c kv => setField c kv.1 kv.2) config)))
  else
    Except.error "Invalid config property"

/-- The persisted file state after a setConfigs call: the new record on
success, the untouched previous state when the raised validation error
propagates before the write. -/
def setConfigsFS (kvs : List (String × FieldVal)) (file : Option PersistedRecord)
    (env : EnvVars) : Option PersistedRecord :=
  match setConfigs kvs file env with
  | Except.ok f => f
  | Except.error _ => file

/-- The observable outcomes of run (run.ts lines 52 to 174): each
fatal early exit, distinguished by its diagnostic, or success with the
text written to stdout. -/
inductive RunResult where
  | errUnknownTemplate
  | errNoDefaultTemplate
  | errTemplateFileMissing
  | errMissingApiKey
  | errMissingModel
  | errEmptyDiff
  | errEmptyReply
  | errUnparsableReply
  | ok (stdout : List Char)
deriving DecidableEq

/-- The ambient state of one run invocation: the loaded configuration,
the optional template-name argument, the filesystem, the staged diff
returned by the diff collaborator, and the chat collaborator mapping
the rendered prompt to the reply content (none models a null content
field). -/
structure RunEnv where
  config : Config
  templateName : Option String
  fileExists : String → Bool
  fileText : String → List Char
  diff : List Char
  chat : List Char → Option (List Char)

/-- The template path run resolves (run.ts lines 58 to 75): the named
entry when a name is supplied, the default entry otherwise. -/
def resolvedPath (env : RunEnv) : Option String :=
  match env.templateName with
  | some name => env.config.templates.lookup name
  | none => env.config.templates.lookup "default"

/-- The prompt rendered from the template at `p` (run.ts line 118). -/
def renderedOf (env : RunEnv) (p : String) : List Char :=
  jsStringReplace (env.fileText p) diffToken env.diff

/-- The stages of run after template resolution (run.ts lines 77 to
174): template file existence, the api-key and model checks, the empty
diff check, the model call, the reply checks, normalization, and the
final numbered output. -/
def runFrom (env : RunEnv) (templateFilePath : String) : RunResult :=
  if !env.fileExists templateFilePath then RunResult.errTemplateFileMissing
  else if env.config.OPENAI_API_KEY = "" then RunResult.errMissingApiKey
  else if env.config.model = "" then RunResult.errMissingModel
  else if (jsTrim env.diff).isEmpty then RunResult.errEmptyDiff
  else
    match env.chat (renderedOf env templateFilePath) with
    | none => RunResult.errEmptyReply
    | some content =>
      if content.isEmpty then RunResult.errEmptyReply
      else if (normalizeCommitSuggestions content).isEmpty then
        RunResult.errUnparsableReply
      else RunResult.ok (joinNumbered (normalizeCommitSuggestions content))

/-- run of run.ts lines 52 to 174 (the pipeline variant with the
response normalizer), with every fatal process exit reified as a
RunResult.  A missing default entry makes the source pass undefined to
Bun.file, an uncaught failure, reified as errNoDefaultTemplate. -/
def run (env : RunEnv) : RunResult :=
  match env.templateName with
  | some name =>
    match env.config.templates.lookup name with
    | some p => runFrom env p
    | none => RunResult.errUnknownTemplate
  | none =>
    match env.config.templates.lookup "default" with
    | some p => runFrom env p
    | none => RunResult.errNoDefaultTemplate

/-- Modelled from the spec (claim C3): a line is a numbered item when
it begins with one or more digits, then a dot or closing parenthesis,
then whitespace, then content, which is captured. -/
def specSepCapture : List Char → Option (List Char)
  | [] => none
  | sep :: r =>
    if sep = '.' || sep = ')' then
      if (r.takeWhile isJsWs).isEmpty then none
      else if (r.dropWhile isJsWs).isEmpty then none
      else some (r.dropWhile isJsWs)
    else none

def specNumberedCapture (l : List Char) : Option (List Char) :=
  if (l.takeWhile isDig).isEmpty then none
  else specSepCapture (l.dropWhile isDig)

/-- The amended per-line rule for claim C3: whitespace is optional both
between the digits and the separator and between the separator and the
content. -/
def amendedSepCapture : List Char → Option (List Char)
  | [] => none
  | sep :: r =>
    if sep = '.' || sep = ')' then
      if (r.dropWhile isJsWs).isEmpty then none
      else some (r.dropWhile isJsWs)
    else none

def amendedNumberedCapture (l : List Char) : Option (List Char) :=
  if (l.takeWhile isDig).isEmpty then none
  else amendedSepCapture ((l.dropWhile isDig).dropWhile isJsWs)

/-! Generic list lemmas used throughout. -/

theorem takeWhile_append_all {p : Char → Bool} {l1 : List Char}
    (l2 : List Char) (h : ∀ a ∈ l1, p a = true) :
    (l1 ++ l2).takeWhile p = l1 ++ l2.takeWhile p := by
  induction l1 with
  | nil => simp
  | cons a t ih =>
    have ha : p a = true := h a (by simp)
    simp only [List.cons_append, List.takeWhile_cons, ha, if_true]
    rw [ih (fun b hb => h b (by simp [hb]))]

theorem dropWhile_append_all {p : Char → Bool} {l1 : List Char}
    (l2 : List Char) (h : ∀ a ∈ l1, p a = true) :
    (l1 ++ l2).dropWhile p = l2.dropWhile p := by
  induction l1 with
  | nil => simp
  | cons a t ih =>
    have ha : p a = true := h a (by simp)
    simp only [List.cons_append, List.dropWhile_cons, ha, if_true]
    exact ih (fun b hb => h b (by simp [hb]))

theorem getLastD_mem {l : List Char} (d : Char) (h : l ≠ []) : l.getLastD d ∈ l := by
  cases l with
  | nil => exact absurd rfl h
  | cons a t =>
    rw [List.getLastD_eq_getLast?, List.getLast?_eq_getLast (a :: t) (by simp)]
    exact List.mem_of_mem_getLast? (List.getLast?_eq_getLast (a :: t) (by simp))

/-! Character-class facts. -/

theorem isDig_digitChar (d : Nat) : isDig (digitChar d) = true := by
  rcases d with _ | _ | _ | _ | _ | _ | _ | _ | _ | d
  · decide
  · decide
  · decide
  · decide
  · decide
  · decide
  · decide
  · decide
  · decide
  · show isDig (digitChar 9) = true
    decide

theorem not_ws_of_dig {c : Char} (h : isDig c = true) : isJsWs c = false := by
  by_contra hc
  have hws : isJsWs c = true := by
    cases hw : isJsWs c
    · exact absurd hw hc
    · rfl
  simp only [isJsWs, Bool.or_eq_true, decide_eq_true_eq] at hws
  rcases hws with ((((rfl | rfl) | rfl) | rfl) | rfl) | rfl <;>
    exact absurd h (by decide)

theorem not_quote_of_dig {c : Char} (h : isDig c = true) : isQuoteCh c = false := by
  by_contra hc
  have hq : isQuoteCh c = true := by
    cases hw : isQuoteCh c
    · exact absurd hw hc
    · rfl
  simp only [isQuoteCh, Bool.or_eq_true, decide_eq_true_eq] at hq
  rcases hq with (rfl | rfl) | rfl <;> exact absurd h (by decide)

/-! Facts about the decimal rendering. -/

theorem natDigitsCore_spec (fuel : Nat) : ∀ n acc, n < fuel →
    ∃ ds, natDigitsCore fuel n acc = ds ++ acc ∧ ds ≠ [] ∧
      ∀ c ∈ ds, isDig c = true := by
  induction fuel with
  | zero => intro n acc h; omega
  | succ fuel ih =>
    intro n acc hn
    rw [natDigitsCore]
    by_cases h10 : n < 10
    · rw [if_pos h10]
      refine ⟨[digitChar n], rfl, by simp, ?_⟩
      intro c hc
      simp only [List.mem_singleton] at hc
      exact hc ▸ isDig_digitChar n
    · rw [if_neg h10]
      have hlt : n / 10 < n := Nat.div_lt_self (by omega) (by omega)
      obtain ⟨ds, hds, hne, hdig⟩ := ih (n / 10) (digitChar (n % 10) :: acc)
        (by omega)
      refine ⟨ds ++ [digitChar (n % 10)], ?_, by simp, ?_⟩
      · rw [hds, List.append_assoc]
        rfl
      · intro c hc
        rcases List.mem_append.mp hc with h1 | h2
        · exact hdig c h1
        · simp only [List.mem_singleton] at h2
          exact h2 ▸ isDig_digitChar (n % 10)

theorem natDigits_ne_nil (n : Nat) : natDigits n ≠ [] := by
  obtain ⟨ds, hds, hne, hdig⟩ := natDigitsCore_spec (n + 1) n [] (by omega)
  unfold natDigits
  rw [hds]
  simpa using hne

theorem natDigits_all_dig (n : Nat) : ∀ c ∈ natDigits n, isDig c = true := by
  obtain ⟨ds, hds, hne, hdig⟩ := natDigitsCore_spec (n + 1) n [] (by omega)
  unfold natDigits
  rw [hds]
  simpa using hdig

/-! Trim lemmas.  `dropRightWhile` is definitionally `List.rdropWhile`,
so the Mathlib lemma suite applies. -/

theorem dropRightWhile_eq (p : Char → Bool) (l : List Char) :
    dropRightWhile p l = List.rdropWhile p l := rfl

theorem jsTrim_def (l : List Char) :
    jsTrim l = List.rdropWhile isJsWs (l.dropWhile isJsWs) := rfl

theorem jsTrim_dropWhile {l : List Char} (h : jsTrim l = l) :
    l.dropWhile isJsWs = l := by
  have hsuf : l.dropWhile isJsWs <:+ l := List.dropWhile_suffix _
  have hpre : jsTrim l <+: l.dropWhile isJsWs := List.rdropWhile_prefix _ _
  have hlen : (l.dropWhile isJsWs).length = l.length := by
    have h1 : (jsTrim l).length ≤ (l.dropWhile isJsWs).length := hpre.length_le
    have h2 : (l.dropWhile isJsWs).length ≤ l.length := hsuf.length_le
    rw [h] at h1
    omega
  exact hsuf.eq_of_length hlen

theorem jsTrim_rdropWhile {l : List Char} (h : jsTrim l = l) :
    List.rdropWhile isJsWs l = l := by
  have := jsTrim_def l
  rw [jsTrim_dropWhile h] at this
  rw [← this, h]

theorem head?_dropWhile_not (p : Char → Bool) (l : List Char) {c : Char}
    (h : (l.dropWhile p).head? = some c) : p c = false := by
  induction l with
  | nil => simp at h
  | cons a t ih =>
    rw [List.dropWhile_cons] at h
    by_cases hp : p a = true
    · rw [if_pos hp] at h
      exact ih h
    · rw [if_neg hp] at h
      simp only [List.head?_cons, Option.some.injEq] at h
      rw [← h]
      simpa using hp

theorem getLast?_rdropWhile_not (p : Char → Bool) (l : List Char) {c : Char}
    (h : (List.rdropWhile p l).getLast? = some c) : p c = false := by
  apply head?_dropWhile_not p l.reverse
  rw [List.rdropWhile] at h
  rwa [List.getLast?_reverse] at h

theorem jsTrim_head_not_ws {l : List Char} (h : jsTrim l = l) {c : Char}
    (hc : l.head? = some c) : isJsWs c = false := by
  have hd := jsTrim_dropWhile h
  exact head?_dropWhile_not isJsWs l (by rw [hd]; exact hc)

theorem jsTrim_getLast_not_ws {l : List Char} (h : jsTrim l = l) {c : Char}
    (hc : l.getLast? = some c) : isJsWs c = false := by
  have hr := jsTrim_rdropWhile h
  exact getLast?_rdropWhile_not isJsWs l (by rw [hr]; exact hc)

theorem jsTrim_eq_self_of {l : List Char}
    (hh : ∀ c, l.head? = some c → isJsWs c = false)
    (hl : ∀ c, l.getLast? = some c → isJsWs c = false) : jsTrim l = l := by
  have hd : l.dropWhile isJsWs = l := by
    cases l with
    | nil => simp
    | cons a t =>
      have := hh a (by simp)
      simp [List.dropWhile_cons, this]
  have hr : List.rdropWhile isJsWs l = l := by
    cases l with
    | nil => simp [List.rdropWhile]
    | cons a t =>
      have hne : a :: t ≠ ([] : List Char) := by simp
      refine List.rdropWhile_eq_self_iff.mpr ?_
      intro hl'
      have := hl ((a :: t).getLast hne) (List.getLast?_eq_getLast (a :: t) hne)
      simp [this]
  rw [jsTrim_def, hd, hr]

theorem jsTrim_head? {l : List Char} {c : Char}
    (hc : (jsTrim l).head? = some c) : isJsWs c = false := by
  have hpre : jsTrim l <+: l.dropWhile isJsWs := List.rdropWhile_prefix _ _
  obtain ⟨s, hs⟩ := hpre
  apply head?_dropWhile_not isJsWs l
  rw [← hs]
  cases hj : jsTrim l with
  | nil => rw [hj] at hc; simp at hc
  | cons a t =>
    rw [hj] at hc
    simp only [List.head?_cons, Option.some.injEq] at hc
    simp [hc]

theorem jsTrim_getLast? {l : List Char} {c : Char}
    (hc : (jsTrim l).getLast? = some c) : isJsWs c = false := by
  exact getLast?_rdropWhile_not isJsWs (l.dropWhile isJsWs) hc

theorem jsTrim_idem (l : List Char) : jsTrim (jsTrim l) = jsTrim l := by
  exact jsTrim_eq_self_of (fun c hc => jsTrim_head? hc) (fun c hc => jsTrim_getLast? hc)

/-! Membership tracking: every character of a normalized message comes
from the raw reply line it was extracted from. -/

theorem mem_of_mem_dropWhile {p : Char → Bool} {l : List Char} {a : Char}
    (h : a ∈ l.dropWhile p) : a ∈ l :=
  (List.dropWhile_suffix p).subset h

theorem mem_of_mem_rdropWhile {p : Char → Bool} {l : List Char} {a : Char}
    (h : a ∈ List.rdropWhile p l) : a ∈ l :=
  (List.rdropWhile_prefix p l).subset h

theorem mem_of_mem_jsTrim {l : List Char} {a : Char} (h : a ∈ jsTrim l) : a ∈ l :=
  mem_of_mem_dropWhile (mem_of_mem_rdropWhile h)

theorem mem_of_mem_cleanMessage {l : List Char} {a : Char}
    (h : a ∈ cleanMessage l) : a ∈ l :=
  mem_of_mem_dropWhile (mem_of_mem_rdropWhile (mem_of_mem_jsTrim h))

theorem sepCapture_subset {s c : List Char} (h : sepCapture s = some c) :
    ∀ a ∈ c, a ∈ s := by
  intro a ha
  unfold sepCapture at h
  split at h
  · exact absurd h (by simp)
  · rename_i sep2 r2
    split at h
    · split at h
      · simp only [Option.some.injEq] at h
        subst h
        exact List.mem_cons_of_mem sep2 (mem_of_mem_dropWhile ha)
      · split at h
        · exact absurd h (by simp)
        · rename_i hre
          simp only [Option.some.injEq] at h
          subst h
          simp only [List.mem_singleton] at ha
          subst ha
          exact List.mem_cons_of_mem sep2 (getLastD_mem ' ' (by simpa using hre))
    · exact absurd h (by simp)

theorem numberedCapture_subset {l c : List Char} (h : numberedCapture l = some c) :
    ∀ a ∈ c, a ∈ l := by
  intro a ha
  unfold numberedCapture at h
  split at h
  · exact absurd h (by simp)
  · have hsuf : (l.dropWhile isDig).dropWhile isJsWs <:+ l :=
      (List.dropWhile_suffix _).trans (List.dropWhile_suffix _)
    exact hsuf.subset (sepCapture_subset h a ha)

theorem bulletCapture_subset {l c : List Char} (h : bulletCapture l = some c) :
    ∀ a ∈ c, a ∈ l := by
  intro a ha
  cases l with
  | nil => simp [bulletCapture] at h
  | cons mk r =>
    unfold bulletCapture at h
    split at h
    · exact absurd h (by simp)
    · rename_i mk2 r2 heq
      injection heq with hmk hr
      subst hmk
      subst hr
      split at h
      · split at h
        · exact absurd h (by simp)
        · split at h
          · split at h
            · simp only [Option.some.injEq] at h
              subst h
              exact List.mem_cons_of_mem _ (mem_of_mem_dropWhile ha)
            · split at h
              · exact absurd h (by simp)
              · simp only [Option.some.injEq] at h
                subst h
                simp only [List.mem_singleton] at ha
                subst ha
                exact List.mem_cons_of_mem _ (getLastD_mem ' ' (by simp))
          · exact absurd h (by simp)
      · exact absurd h (by simp)

theorem splitNl_no_nl {s : List Char} {l : List Char} (h : l ∈ splitNl s) :
    '\n' ∉ l := by
  induction s generalizing l with
  | nil =>
    simp only [splitNl, List.mem_singleton] at h
    subst h
    exact List.not_mem_nil _
  | cons c rest ih =>
    rw [splitNl] at h
    by_cases hc : c = '\n'
    · rw [if_pos hc] at h
      rcases List.mem_cons.mp h with rfl | h2
      · exact List.not_mem_nil _
      · exact ih h2
    · rw [if_neg hc] at h
      rcases hs : splitNl rest with _ | ⟨a, as⟩
      · rw [hs] at h
        simp only [List.mem_singleton] at h
        subst h
        intro hm
        simp only [List.mem_singleton] at hm
        exact hc hm.symm
      · rw [hs] at h
        rcases List.mem_cons.mp h with rfl | h2
        · intro hmem
          rcases List.mem_cons.mp hmem with h3 | h3
          · exact hc h3.symm
          · exact ih (hs ▸ List.mem_cons_self a as) h3
        · exact ih (hs ▸ List.mem_cons_of_mem a h2)

theorem mem_linesOf_facts {raw l : List Char} (h : l ∈ linesOf raw) :
    jsTrim l = l ∧ '\n' ∉ l := by
  unfold linesOf at h
  have h1 := List.mem_of_mem_filter h
  have h2 := List.mem_of_mem_filter h1
  obtain ⟨l0, hl0, rfl⟩ := List.mem_map.mp h2
  exact ⟨jsTrim_idem l0, fun hm => splitNl_no_nl hl0 (mem_of_mem_jsTrim hm)⟩

theorem mem_normalize_facts {raw m : List Char}
    (h : m ∈ normalizeCommitSuggestions raw) : m ≠ [] ∧ '\n' ∉ m := by
  unfold normalizeCommitSuggestions at h
  have hne : ¬ m.isEmpty := by
    have := List.of_mem_filter h
    simpa using this
  have h1 := List.mem_of_mem_filter h
  obtain ⟨x, hx, rfl⟩ := List.mem_map.mp h1
  refine ⟨by simpa using hne, ?_⟩
  intro hmem
  unfold candidatesOf at hx
  split at hx
  · obtain ⟨l, hl, hcap⟩ := List.mem_filterMap.mp hx
    exact (mem_linesOf_facts hl).2
      (bulletCapture_subset hcap _ (mem_of_mem_cleanMessage hmem))
  · obtain ⟨l, hl, hcap⟩ := List.mem_filterMap.mp hx
    exact (mem_linesOf_facts hl).2
      (numberedCapture_subset hcap _ (mem_of_mem_cleanMessage hmem))

/-! Round-trip lemmas: joining newline-free lines and splitting again
recovers the lines, and the CRLF normalization fixes such a join. -/

theorem crlfToLf_no_nl {l : List Char} (h : '\n' ∉ l) : crlfToLf l = l := by
  induction l with
  | nil => rfl
  | cons c1 rest ih =>
    cases rest with
    | nil => rfl
    | cons c2 rest2 =>
      have h2 : '\n' ∉ c2 :: rest2 := fun hm => h (List.mem_cons_of_mem c1 hm)
      have hc2 : c2 ≠ '\n' := fun he => h2 (he ▸ List.mem_cons_self c2 rest2)
      rw [crlfToLf]
      by_cases h1 : c1 = '\r'
      · rw [if_pos h1, if_neg hc2]
        rw [ih h2]
      · rw [if_neg h1]
        rw [ih h2]

theorem crlfToLf_cons_nl (rest : List Char) :
    crlfToLf ('\n' :: rest) = '\n' :: crlfToLf rest := by
  cases rest with
  | nil => rfl
  | cons c t =>
    rw [crlfToLf, if_neg (by decide : ¬ ('\n' : Char) = '\r')]

theorem crlfToLf_append_nl {l : List Char} (rest : List Char) (h : '\n' ∉ l)
    (hlast : ∀ c, l.getLast? = some c → c ≠ '\r') :
    crlfToLf (l ++ '\n' :: rest) = l ++ '\n' :: crlfToLf rest := by
  induction l with
  | nil =>
    simp only [List.nil_append]
    exact crlfToLf_cons_nl rest
  | cons c1 t ih =>
    cases t with
    | nil =>
      have hc1 : c1 ≠ '\r' := hlast c1 (by simp)
      simp only [List.cons_append, List.nil_append]
      rw [crlfToLf, if_neg hc1]
      rw [crlfToLf_cons_nl]
    | cons c2 t2 =>
      have h2 : '\n' ∉ c2 :: t2 := fun hm => h (List.mem_cons_of_mem c1 hm)
      have hc2 : c2 ≠ '\n' := fun he => h2 (he ▸ List.mem_cons_self c2 t2)
      have hlast2 : ∀ c, (c2 :: t2).getLast? = some c → c ≠ '\r' := by
        intro c hc
        apply hlast
        rw [List.getLast?_cons_cons]
        exact hc
      simp only [List.cons_append]
      rw [crlfToLf]
      by_cases h1 : c1 = '\r'
      · rw [if_pos h1, if_neg hc2]
        have := ih h2 hlast2
        simp only [List.cons_append] at this
        rw [this]
      · rw [if_neg h1]
        have := ih h2 hlast2
        simp only [List.cons_append] at this
        rw [this]

theorem splitNl_self {l : List Char} (h : '\n' ∉ l) : splitNl l = [l] := by
  induction l with
  | nil => rfl
  | cons c rest ih =>
    have hc : c ≠ '\n' := fun he => h (he ▸ List.mem_cons_self c rest)
    have h2 : '\n' ∉ rest := fun hm => h (List.mem_cons_of_mem c hm)
    rw [splitNl, if_neg hc, ih h2]

theorem splitNl_append_nl {l : List Char} (s : List Char) (h : '\n' ∉ l) :
    splitNl (l ++ '\n' :: s) = l :: splitNl s := by
  induction l with
  | nil => simp [splitNl]
  | cons c t ih =>
    have hc : c ≠ '\n' := fun he => h (he ▸ List.mem_cons_self c t)
    have h2 : '\n' ∉ t := fun hm => h (List.mem_cons_of_mem c hm)
    simp only [List.cons_append]
    rw [splitNl, if_neg hc, ih h2]

/-- Splitting the join of a nonempty family of newline-free lines
yields the family back. -/
theorem splitNl_joinLines {ls : List (List Char)} (hne : ls ≠ [])
    (h : ∀ l ∈ ls, '\n' ∉ l) : splitNl (joinLines ls) = ls := by
  induction ls with
  | nil => exact absurd rfl hne
  | cons l rest ih =>
    cases rest with
    | nil =>
      rw [joinLines]
      exact splitNl_self (h l (by simp))
    | cons l2 rest2 =>
      rw [joinLines, splitNl_append_nl _ (h l (by simp))]
      rw [ih (by simp) (fun x hx => h x (List.mem_cons_of_mem l hx))]

/-- The CRLF normalization fixes the join of a nonempty family of
newline-free lines none of which ends in a carriage return. -/
theorem crlfToLf_joinLines {ls : List (List Char)}
    (h : ∀ l ∈ ls, '\n' ∉ l ∧ (∀ c, l.getLast? = some c → c ≠ '\r')) :
    crlfToLf (joinLines ls) = joinLines ls := by
  induction ls with
  | nil => rfl
  | cons l rest ih =>
    cases rest with
    | nil =>
      rw [joinLines]
      exact crlfToLf_no_nl (h l (by simp)).1
    | cons l2 rest2 =>
      rw [joinLines]
      rw [crlfToLf_append_nl _ (h l (by simp)).1 (h l (by simp)).2]
      rw [ih (fun x hx => h x (List.mem_cons_of_mem l hx))]

/-! Re-parsing the renumbered output: each line of the emitted list is
recognized again by the numbered matcher with exactly its message as
the capture. -/

theorem map_id_of_fixed {α : Type} {f : α → α} {l : List α}
    (h : ∀ a ∈ l, f a = a) : l.map f = l := by
  induction l with
  | nil => rfl
  | cons a t ih =>
    rw [List.map_cons, h a (by simp), ih (fun b hb => h b (by simp [hb]))]

theorem filter_id_of_all {α : Type} {p : α → Bool} {l : List α}
    (h : ∀ a ∈ l, p a = true) : l.filter p = l := by
  induction l with
  | nil => rfl
  | cons a t ih =>
    rw [List.filter_cons_of_pos (h a (by simp)),
      ih (fun b hb => h b (by simp [hb]))]

theorem natDigits_head_dig (n : Nat) :
    ∃ c, (natDigits n).head? = some c ∧ isDig c = true := by
  rcases hd : natDigits n with _ | ⟨c, t⟩
  · exact absurd hd (natDigits_ne_nil n)
  · exact ⟨c, by simp, natDigits_all_dig n c (hd ▸ List.mem_cons_self c t)⟩

theorem head?_append_left {l1 l2 : List Char} {c : Char} (h : l1.head? = some c) :
    (l1 ++ l2).head? = some c := by
  cases l1 with
  | nil => simp at h
  | cons a t =>
    simp only [List.head?_cons, Option.some.injEq] at h
    simp [h]

theorem getLast?_append_right {l1 l2 : List Char} (h : l2 ≠ []) :
    (l1 ++ l2).getLast? = l2.getLast? := by
  rw [List.getLast?_append, List.getLast?_eq_getLast l2 h]
  simp

theorem numberedCapture_numLine (i : Nat) {m : List Char} (hne : m ≠ [])
    (htr : jsTrim m = m) :
    numberedCapture (natDigits (i + 1) ++ '.' :: ' ' :: m) = some m := by
  have hdig := natDigits_all_dig (i + 1)
  have hndne := natDigits_ne_nil (i + 1)
  have e1 : (natDigits (i + 1) ++ '.' :: ' ' :: m).takeWhile isDig
      = natDigits (i + 1) := by
    rw [takeWhile_append_all _ hdig, List.takeWhile_cons, if_neg (by decide)]
    simp
  have e2 : (natDigits (i + 1) ++ '.' :: ' ' :: m).dropWhile isDig
      = '.' :: ' ' :: m := by
    rw [dropWhile_append_all _ hdig, List.dropWhile_cons, if_neg (by decide)]
  have e3 : ('.' :: ' ' :: m).dropWhile isJsWs = '.' :: ' ' :: m := by
    rw [List.dropWhile_cons, if_neg (by decide)]
  have e4 : (' ' :: m).dropWhile isJsWs = m := by
    rw [List.dropWhile_cons, if_pos (by decide)]
    exact jsTrim_dropWhile htr
  unfold numberedCapture
  rw [e1, e2, e3]
  rw [if_neg (by simpa using hndne)]
  rw [sepCapture]
  rw [if_pos (by decide), e4]
  rw [if_pos (by simpa using hne)]

theorem jsTrim_numLine (i : Nat) {m : List Char} (hne : m ≠ [])
    (htr : jsTrim m = m) :
    jsTrim (natDigits (i + 1) ++ '.' :: ' ' :: m)
      = natDigits (i + 1) ++ '.' :: ' ' :: m := by
  apply jsTrim_eq_self_of
  · intro c hc
    obtain ⟨d, hd, hdd⟩ := natDigits_head_dig (i + 1)
    rw [head?_append_left hd] at hc
    simp only [Option.some.injEq] at hc
    subst hc
    exact not_ws_of_dig hdd
  · intro c hc
    rw [getLast?_append_right (by simp)] at hc
    have : ('.' :: ' ' :: m).getLast? = m.getLast? := by
      have : '.' :: ' ' :: m = ['.', ' '] ++ m := rfl
      rw [this, getLast?_append_right hne]
    rw [this] at hc
    exact jsTrim_getLast_not_ws htr hc

theorem isFence_numLine (i : Nat) (m : List Char) :
    isFence (natDigits (i + 1) ++ '.' :: ' ' :: m) = false := by
  rcases hnd : natDigits (i + 1) with _ | ⟨a, t⟩
  · exact absurd hnd (natDigits_ne_nil (i + 1))
  · have hdd : isDig a = true :=
      natDigits_all_dig (i + 1) a (hnd ▸ List.mem_cons_self a t)
    unfold isFence
    have h96 : fenceChars = Char.ofNat 96 :: Char.ofNat 96 :: Char.ofNat 96 :: [] := by
      decide
    rw [h96]
    simp only [List.cons_append, List.isPrefixOf]
    have hne96 : (Char.ofNat 96 == a) = false := by
      simp only [isDig, Bool.and_eq_true, decide_eq_true_eq] at hdd
      have h1 : (Char.ofNat 96).toNat = 96 := by decide
      simp only [beq_eq_false_iff_ne, ne_eq]
      intro he
      rw [← he] at hdd
      omega
    rw [hne96, Bool.false_and]

theorem bool_not_isEmpty_of_ne_nil {α : Type} {l : List α} (h : l ≠ []) :
    (!l.isEmpty) = true := by
  cases l with
  | nil => exact absurd rfl h
  | cons a t => rfl

theorem numLine_ne_nil (i : Nat) (m : List Char) :
    natDigits (i + 1) ++ '.' :: ' ' :: m ≠ [] := by
  simp

/-- Every line of the renumbered join survives the line preprocessing
untouched. -/
theorem linesOf_numberLines {ms : List (List Char)}
    (h : ∀ m ∈ ms, m ≠ [] ∧ '\n' ∉ m ∧ jsTrim m = m) (i : Nat) :
    linesOf (joinLines (numberLines i ms)) = numberLines i ms := by
  have hlinefacts : ∀ l ∈ numberLines i ms,
      (∃ j m, m ∈ ms ∧ l = natDigits (j + 1) ++ '.' :: ' ' :: m) := by
    clear h
    induction ms generalizing i with
    | nil => intro l hl; simp [numberLines] at hl
    | cons m rest ih =>
      intro l hl
      rw [numberLines] at hl
      rcases List.mem_cons.mp hl with rfl | h2
      · exact ⟨i, m, by simp, rfl⟩
      · obtain ⟨j, m2, hm2, hl2⟩ := ih (i + 1) l h2
        exact ⟨j, m2, by simp [hm2], hl2⟩
  have hperline : ∀ l ∈ numberLines i ms,
      '\n' ∉ l ∧ (∀ c, l.getLast? = some c → c ≠ '\r') ∧ jsTrim l = l ∧
        l ≠ [] ∧ isFence l = false := by
    intro l hl
    obtain ⟨j, m, hm, rfl⟩ := hlinefacts l hl
    obtain ⟨hmne, hmnl, hmtr⟩ := h m hm
    refine ⟨?_, ?_, jsTrim_numLine j hmne hmtr, numLine_ne_nil j m, isFence_numLine j m⟩
    · intro hmem
      rcases List.mem_append.mp hmem with h1 | h2
      · have := natDigits_all_dig (j + 1) _ h1
        exact absurd this (by decide)
      · rcases List.mem_cons.mp h2 with h3 | h4
        · exact absurd h3 (by decide)
        · rcases List.mem_cons.mp h4 with h5 | h6
          · exact absurd h5 (by decide)
          · exact hmnl h6
    · intro c hc
      rw [getLast?_append_right (by simp)] at hc
      have he : ('.' :: ' ' :: m).getLast? = m.getLast? := by
        have h0 : '.' :: ' ' :: m = ['.', ' '] ++ m := rfl
        rw [h0, getLast?_append_right hmne]
      rw [he] at hc
      have := jsTrim_getLast_not_ws hmtr hc
      intro hrfl
      subst hrfl
      exact absurd this (by decide)
  cases ms with
  | nil =>
    rw [numberLines]
    decide
  | cons m0 rest =>
    have hnn : numberLines i (m0 :: rest) ≠ [] := by
      rw [numberLines]
      simp
    unfold linesOf
    rw [crlfToLf_joinLines (fun l hl => ⟨(hperline l hl).1, (hperline l hl).2.1⟩)]
    rw [splitNl_joinLines hnn (fun l hl => (hperline l hl).1)]
    rw [map_id_of_fixed (fun l hl => (hperline l hl).2.2.1)]
    have hf1 : (numberLines i (m0 :: rest)).filter (fun l => !l.isEmpty)
        = numberLines i (m0 :: rest) :=
      filter_id_of_all
        (fun l hl => bool_not_isEmpty_of_ne_nil (hperline l hl).2.2.2.1)
    have hf2 : (numberLines i (m0 :: rest)).filter (fun l => !isFence l)
        = numberLines i (m0 :: rest) :=
      filter_id_of_all (fun l hl => by simp [(hperline l hl).2.2.2.2])
    rw [hf1, hf2]

theorem filterMap_numberedCapture_numberLines {ms : List (List Char)}
    (h : ∀ m ∈ ms, m ≠ [] ∧ jsTrim m = m) (i : Nat) :
    (numberLines i ms).filterMap numberedCapture = ms := by
  induction ms generalizing i with
  | nil => rfl
  | cons m rest ih =>
    rw [numberLines, List.filterMap_cons,
      numberedCapture_numLine i (h m (by simp)).1 (h m (by simp)).2]
    rw [ih (fun b hb => h b (by simp [hb])) (i + 1)]

/-- Normalizing the renumbered join of clean messages recovers them. -/
theorem normalize_numberLines {ms : List (List Char)}
    (h : ∀ m ∈ ms, m ≠ [] ∧ '\n' ∉ m ∧ jsTrim m = m ∧ cleanMessage m = m) :
    normalizeCommitSuggestions (joinLines (numberLines 0 ms)) = ms := by
  cases ms with
  | nil => decide
  | cons m0 rest =>
    have hl3 : ∀ m ∈ m0 :: rest, m ≠ [] ∧ '\n' ∉ m ∧ jsTrim m = m :=
      fun m hm => ⟨(h m hm).1, (h m hm).2.1, (h m hm).2.2.1⟩
    have hnum : fromNumberedOf (joinLines (numberLines 0 (m0 :: rest)))
        = m0 :: rest := by
      unfold fromNumberedOf
      rw [linesOf_numberLines hl3 0]
      exact filterMap_numberedCapture_numberLines
        (fun m hm => ⟨(h m hm).1, (h m hm).2.2.1⟩) 0
    unfold normalizeCommitSuggestions candidatesOf
    rw [hnum]
    rw [if_neg (by simp)]
    rw [map_id_of_fixed (fun m hm => (h m hm).2.2.2)]
    rw [filter_id_of_all (fun m hm => by simp [(h m hm).1])]

/-! Lemmas for the remaining claims: the per-line matcher equivalence,
dollar-free substitution, lookup through a filter, and frame lemmas for
the configuration update fold. -/

theorem sepCapture_eq_amended {l : List Char} (htr : jsTrim l = l)
    {sep : Char} {r : List Char}
    (hs : (l.dropWhile isDig).dropWhile isJsWs = sep :: r) :
    sepCapture (sep :: r) = amendedSepCapture (sep :: r) := by
  have hrnil : (r.dropWhile isJsWs).isEmpty = true → r = [] := by
    intro hdw
    by_contra hrne
    have hall : ∀ x ∈ r, isJsWs x = true :=
      List.dropWhile_eq_nil_iff.mp (by simpa using hdw)
    have hsuf : sep :: r <:+ l := by
      have h1 : (l.dropWhile isDig).dropWhile isJsWs <:+ l :=
        (List.dropWhile_suffix _).trans (List.dropWhile_suffix _)
      rwa [hs] at h1
    have hrsuf : r <:+ l := (List.suffix_cons sep r).trans hsuf
    obtain ⟨c, hc⟩ : ∃ c, r.getLast? = some c := by
      cases r with
      | nil => exact absurd rfl hrne
      | cons x xs => exact ⟨_, List.getLast?_eq_getLast _ (by simp)⟩
    have hlast : l.getLast? = some c := by
      obtain ⟨t2, ht2⟩ := hrsuf
      rw [← ht2, getLast?_append_right hrne]
      exact hc
    have hws : isJsWs c = true := hall c (List.mem_of_mem_getLast? hc)
    have hnw := jsTrim_getLast_not_ws htr hlast
    rw [hnw] at hws
    exact absurd hws (by simp)
  rw [sepCapture, amendedSepCapture]
  by_cases hsep : (sep = '.' || sep = ')') = true
  · rw [if_pos hsep, if_pos hsep]
    by_cases hdw : (r.dropWhile isJsWs).isEmpty = true
    · have hr : r = [] := hrnil hdw
      subst hr
      simp
    · rw [if_pos (by simpa using hdw), if_neg hdw]
  · rw [if_neg hsep, if_neg hsep]

theorem numberedCapture_eq_amended {l : List Char} (htr : jsTrim l = l) :
    numberedCapture l = amendedNumberedCapture l := by
  unfold numberedCapture amendedNumberedCapture
  by_cases hds : (l.takeWhile isDig).isEmpty = true
  · rw [if_pos hds, if_pos hds]
  · rw [if_neg hds, if_neg hds]
    rcases hs : (l.dropWhile isDig).dropWhile isJsWs with _ | ⟨sep, r⟩
    · rfl
    · exact sepCapture_eq_amended htr hs

theorem getSubstitution_no_dollar (matched before after : List Char) :
    ∀ {repl : List Char}, '$' ∉ repl →
      getSubstitution matched before after repl = repl
  | [], _ => rfl
  | [c], _ => rfl
  | c :: d :: r, h => by
    have hc : c ≠ '$' := fun he => h (he ▸ List.mem_cons_self _ _)
    rw [getSubstitution, if_neg hc]
    rw [getSubstitution_no_dollar matched before after
      (fun hm => h (List.mem_cons_of_mem c hm))]

theorem lookup_filter_of_exists {tpls : List (String × String)} {k p : String}
    {f : String → Bool} (hl : tpls.lookup k = some p) (hf : f p = true) :
    (tpls.filter (fun kv => f kv.2)).lookup k = some p := by
  induction tpls with
  | nil => simp [List.lookup] at hl
  | cons kv rest ih =>
    obtain ⟨k1, v1⟩ := kv
    by_cases hk : (k == k1) = true
    · simp only [List.lookup, hk] at hl
      simp only [Option.some.injEq] at hl
      subst hl
      rw [List.filter_cons_of_pos (by simpa using hf)]
      simp [List.lookup, hk]
    · have hk2 : (k == k1) = false := by simpa using hk
      simp only [List.lookup, hk2] at hl
      by_cases hfv : f v1 = true
      · rw [List.filter_cons_of_pos (by simpa using hfv)]
        simp only [List.lookup, hk2]
        exact ih hl
      · rw [List.filter_cons_of_neg (by simpa using hfv)]
        exact ih hl

theorem setField_apiKey_of_ne {c : Config} {k : String} {v : FieldVal}
    (h : k ≠ "OPENAI_API_KEY") :
    (setField c k v).OPENAI_API_KEY = c.OPENAI_API_KEY := by
  unfold setField
  rw [if_neg h]
  by_cases h2 : k = "OPENAI_API_BASE"
  · rw [if_pos h2]
    cases v <;> rfl
  · rw [if_neg h2]
    by_cases h3 : k = "model"
    · rw [if_pos h3]
      cases v <;> rfl
    · rw [if_neg h3]
      by_cases h4 : k = "templates"
      · rw [if_pos h4]
        cases v <;> rfl
      · rw [if_neg h4]

theorem setField_apiBase_of_ne {c : Config} {k : String} {v : FieldVal}
    (h : k ≠ "OPENAI_API_BASE") :
    (setField c k v).OPENAI_API_BASE = c.OPENAI_API_BASE := by
  unfold setField
  by_cases h1 : k = "OPENAI_API_KEY"
  · rw [if_pos h1]
    cases v <;> rfl
  · rw [if_neg h1, if_neg h]
    by_cases h3 : k = "model"
    · rw [if_pos h3]
      cases v <;> rfl
    · rw [if_neg h3]
      by_cases h4 : k = "templates"
      · rw [if_pos h4]
        cases v <;> rfl
      · rw [if_neg h4]

theorem setField_model_of_ne {c : Config} {k : String} {v : FieldVal}
    (h : k ≠ "model") :
    (setField c k v).model = c.model := by
  unfold setField
  by_cases h1 : k = "OPENAI_API_KEY"
  · rw [if_pos h1]
    cases v <;> rfl
  · rw [if_neg h1]
    by_cases h2 : k = "OPENAI_API_BASE"
    · rw [if_pos h2]
      cases v <;> rfl
    · rw [if_neg h2, if_neg h]
      by_cases h4 : k = "templates"
      · rw [if_pos h4]
        cases v <;> rfl
      · rw [if_neg h4]

theorem foldl_setField_pres {α : Type} {g : Config → α} {key : String}
    (hg : ∀ c k v, k ≠ key → g (setField c k v) = g c) :
    ∀ {kvs : List (String × FieldVal)}, key ∉ kvs.map Prod.fst →
      ∀ c, g (kvs.foldl (fun c kv => setField c kv.1 kv.2) c) = g c := by
  intro kvs
  induction kvs with
  | nil => intro _ c; rfl
  | cons kv rest ih =>
    intro h c
    rw [List.foldl_cons]
    have hk : kv.1 ≠ key := by
      intro he
      exact h (by simp [he])
    rw [ih (fun hm => h (by simp [hm])) (setField c kv.1 kv.2)]
    exact hg c kv.1 kv.2 hk

/-! Projection lemmas for the environment overlay. -/

theorem overlayEnv_templates (c : Config) (e : EnvVars) :
    (overlayEnv c e).templates = c.templates := by
  unfold overlayEnv overlayModel overlayBase overlayKey
  split <;> split <;> split <;> rfl

theorem overlayEnv_extras (c : Config) (e : EnvVars) :
    (overlayEnv c e).extras = c.extras := by
  unfold overlayEnv overlayModel overlayBase overlayKey
  split <;> split <;> split <;> rfl

theorem overlayEnv_key (c : Config) (e : EnvVars) :
    (overlayEnv c e).OPENAI_API_KEY =
      if envTruthy e.OPENAI_API_KEY then e.OPENAI_API_KEY.getD ""
      else c.OPENAI_API_KEY := by
  unfold overlayEnv overlayModel overlayBase overlayKey
  split <;> split <;> split <;> rfl

theorem overlayEnv_base (c : Config) (e : EnvVars) :
    (overlayEnv c e).OPENAI_API_BASE =
      if envTruthy e.OPENAI_API_BASE then e.OPENAI_API_BASE.getD ""
      else c.OPENAI_API_BASE := by
  unfold overlayEnv overlayModel overlayBase overlayKey
  split <;> split <;> split <;> rfl

theorem overlayEnv_model (c : Config) (e : EnvVars) :
    (overlayEnv c e).model =
      if envTruthy e.OPENAI_MODEL then e.OPENAI_MODEL.getD ""
      else c.model := by
  unfold overlayEnv overlayModel overlayBase overlayKey
  split <;> split <;> split <;> rfl

theorem envTruthy_of_ne {s : String} (h : s ≠ "") :
    envTruthy (some s) = true := by
  show (!s.isEmpty) = true
  cases hs : s.isEmpty
  · rfl
  · exact absurd ((String.isEmpty_iff s).mp hs) h

/-! The claims. -/

/-- Claim C1 counterexample: load applied to a persisted record whose
templates mapping lacks the key "default" returns a configuration
without that key (the spread replaces the mapping wholesale), and
pruning the built-in default configuration when no file exists removes
the "default" entry too; the claimed invariant fails in both places. -/
theorem claim1_counterexample :
    (readConfigFile (some ⟨none, none, none, some [("a", "p")], []⟩)
        ⟨none, none, none⟩).templates.lookup "default" = none
    ∧ ((cleanUpTemplates (readConfigFile none ⟨none, none, none⟩)
        (fun _ => false)).templates.lookup "default") = none := by
  refine ⟨by decide, by decide⟩

/-- Claim C1 (amended): the configuration returned by load contains the
templates key "default" whenever the persisted record is absent or has
no templates field of its own; a persisted templates mapping replaces
the built-in one wholesale; and pruning keeps the "default" entry
exactly when the file at its path exists. -/
theorem claim1_amended :
    (∀ env, ((readConfigFile none env).templates.lookup "default").isSome = true)
    ∧ (∀ f env, f.templates = none →
        ((readConfigFile (some f) env).templates.lookup "default").isSome = true)
    ∧ (∀ (c : Config) (fexists : String → Bool) (p : String),
        c.templates.lookup "default" = some p → fexists p = true →
        (cleanUpTemplates c fexists).templates.lookup "default" = some p) := by
  refine ⟨?_, ?_, ?_⟩
  · intro env
    show ((overlayEnv DEFAULT_CONFIG env).templates.lookup "default").isSome = true
    rw [overlayEnv_templates]
    decide
  · intro f env hf
    show ((overlayEnv (mergeOver f) env).templates.lookup "default").isSome = true
    rw [overlayEnv_templates]
    show ((f.templates.getD DEFAULT_CONFIG.templates).lookup "default").isSome = true
    rw [hf]
    decide
  · intro c fexists p hp hf
    unfold cleanUpTemplates
    exact lookup_filter_of_exists hp hf

/-- Claim C1 witness: the amended statement evaluated at the built-in
default configuration. -/
theorem claim1_witness :
    ((readConfigFile none ⟨some "k", none, none⟩).templates.lookup
        "default").isSome = true
    ∧ (cleanUpTemplates DEFAULT_CONFIG (fun _ => true)).templates.lookup "default"
        = some defaultTemplatePath :=
  ⟨claim1_amended.1 ⟨some "k", none, none⟩,
    claim1_amended.2.2 DEFAULT_CONFIG (fun _ => true) defaultTemplatePath
      (by decide) rfl⟩

/-- Claim C10: pruning changes only the templates field; the api key,
api base, model and all unknown fields are untouched, and the resulting
mapping is exactly the restriction of the input mapping to the entries
whose files exist. -/
theorem claim10_frame :
    ∀ (c : Config) (fexists : String → Bool),
      (cleanUpTemplates c fexists).OPENAI_API_KEY = c.OPENAI_API_KEY
      ∧ (cleanUpTemplates c fexists).OPENAI_API_BASE = c.OPENAI_API_BASE
      ∧ (cleanUpTemplates c fexists).model = c.model
      ∧ (cleanUpTemplates c fexists).extras = c.extras
      ∧ (cleanUpTemplates c fexists).templates
          = c.templates.filter (fun kv => fexists kv.2) :=
  fun _ _ => ⟨rfl, rfl, rfl, rfl, rfl⟩

/-- Claim C6: load returns exactly the built-in defaults when the
persisted file is absent and the environment is silent, falls back to
the defaults before the environment overlay in general, merges a
partial persisted record over the defaults so omitted fields gain
default values, and gives a non-empty environment variable precedence
for each of the three overridable fields. -/
theorem claim6_load :
    readConfigFile none ⟨none, none, none⟩ = DEFAULT_CONFIG
    ∧ (∀ env, readConfigFile none env = overlayEnv DEFAULT_CONFIG env)
    ∧ readConfigFile (some ⟨none, none, some "x", none, []⟩) ⟨none, none, none⟩
        = { DEFAULT_CONFIG with model := "x" }
    ∧ (∀ file env k, env.OPENAI_API_KEY = some k → k ≠ "" →
        (readConfigFile file env).OPENAI_API_KEY = k)
    ∧ (∀ file env b, env.OPENAI_API_BASE = some b → b ≠ "" →
        (readConfigFile file env).OPENAI_API_BASE = b)
    ∧ (∀ file env m, env.OPENAI_MODEL = some m → m ≠ "" →
        (readConfigFile file env).model = m) := by
  refine ⟨by decide, fun env => rfl, by decide, ?_, ?_, ?_⟩
  · intro file env k hk hne
    show (overlayEnv _ env).OPENAI_API_KEY = k
    rw [overlayEnv_key, hk, if_pos (envTruthy_of_ne hne)]
    rfl
  · intro file env b hb hne
    show (overlayEnv _ env).OPENAI_API_BASE = b
    rw [overlayEnv_base, hb, if_pos (envTruthy_of_ne hne)]
    rfl
  · intro file env m hm hne
    show (overlayEnv _ env).model = m
    rw [overlayEnv_model, hm, if_pos (envTruthy_of_ne hne)]
    rfl

/-- Claim C6 witness: the environment-precedence conjuncts evaluated at
a persisted key "a" and environment key "b". -/
theorem claim6_witness :
    (readConfigFile (some ⟨some "a", none, none, none, []⟩)
        ⟨some "b", none, none⟩).OPENAI_API_KEY = "b" :=
  claim6_load.2.2.2.1 (some ⟨some "a", none, none, none, []⟩)
    ⟨some "b", none, none⟩ "b" rfl (by decide)

/-- Claim C2 counterexample: with persisted api key "a" and environment
api key "b", updating only the model persists api key "b" — the
environment override is written back, because setConfigs re-loads the
merged, environment-overlaid configuration and serializes all of it. -/
theorem claim2_counterexample :
    (setConfigsFS [("model", FieldVal.str "m")]
        (some ⟨some "a", none, none, none, []⟩)
        ⟨some "b", none, none⟩).map PersistedRecord.OPENAI_API_KEY
      = some (some "b") := by
  decide

/-- Claim C2 (amended): for a valid update list, setConfigs overwrites
the file with the re-loaded configuration after the updates; a field
not named in the update list is persisted with its loaded value — the
default-merged, environment-overlaid value — rather than its prior
persisted value, so a non-empty environment variable for that field is
written back. -/
theorem claim2_amended (kvs : List (String × FieldVal))
    (file : Option PersistedRecord) (env : EnvVars)
    (hvalid : validateKeys (kvs.map Prod.fst) = true) :
    ∃ r, setConfigs kvs file env = Except.ok (some r)
      ∧ ("OPENAI_API_KEY" ∉ kvs.map Prod.fst →
          r.OPENAI_API_KEY = some ((readConfigFile file env).OPENAI_API_KEY))
      ∧ ("OPENAI_API_BASE" ∉ kvs.map Prod.fst →
          r.OPENAI_API_BASE = some ((readConfigFile file env).OPENAI_API_BASE))
      ∧ ("model" ∉ kvs.map Prod.fst →
          r.model = some ((readConfigFile file env).model)) := by
  refine ⟨configToRecord (kvs.foldl (fun c kv => setField c kv.1 kv.2)
    (readConfigFile file env)), ?_, ?_, ?_, ?_⟩
  · unfold setConfigs
    rw [if_pos hvalid]
  · intro hmem
    exact congrArg some (foldl_setField_pres
      (fun c k v h => setField_apiKey_of_ne h) hmem (readConfigFile file env))
  · intro hmem
    exact congrArg some (foldl_setField_pres
      (fun c k v h => setField_apiBase_of_ne h) hmem (readConfigFile file env))
  · intro hmem
    exact congrArg some (foldl_setField_pres
      (fun c k v h => setField_model_of_ne h) hmem (readConfigFile file env))

/-- Claim C2 witness: the amended statement evaluated at a
model-only update over the default state. -/
theorem claim2_witness :
    ∃ r, setConfigs [("model", FieldVal.str "m")] none ⟨none, none, none⟩
        = Except.ok (some r)
      ∧ r.OPENAI_API_KEY
          = some ((readConfigFile none ⟨none, none, none⟩).OPENAI_API_KEY) := by
  obtain ⟨r, h1, h2, h3, h4⟩ := claim2_amended [("model", FieldVal.str "m")]
    none ⟨none, none, none⟩ (by decide)
  exact ⟨r, h1, h2 (by decide)⟩

/-- Claim C7: an update list containing a field name outside the four
known top-level fields makes setConfigs fail with the configuration
error, and the persisted record is left unchanged — the exception
propagates before the single whole-file write. -/
theorem claim7_invalid_key (kvs : List (String × FieldVal))
    (file : Option PersistedRecord) (env : EnvVars) {k : String}
    (hk : k ∈ kvs.map Prod.fst) (hbad : configKeys.contains k = false) :
    setConfigs kvs file env = Except.error "Invalid config property"
    ∧ setConfigsFS kvs file env = file := by
  have hv : validateKeys (kvs.map Prod.fst) = false := by
    unfold validateKeys
    by_contra hva
    have hall : (kvs.map Prod.fst).all (fun k => configKeys.contains k) = true := by
      cases hx : (kvs.map Prod.fst).all (fun k => configKeys.contains k)
      · exact absurd hx hva
      · rfl
    have := List.all_eq_true.mp hall k hk
    rw [hbad] at this
    exact absurd this (by simp)
  have herr : setConfigs kvs file env = Except.error "Invalid config property" := by
    unfold setConfigs
    rw [if_neg (by simp [hv])]
  refine ⟨herr, ?_⟩
  unfold setConfigsFS
  rw [herr]

/-- Claim C7 witness: a single-element update list with an unknown
field name over the default state. -/
theorem claim7_witness :
    setConfigs [("bogus", FieldVal.str "v")] none ⟨none, none, none⟩
        = Except.error "Invalid config property"
    ∧ setConfigsFS [("bogus", FieldVal.str "v")] none ⟨none, none, none⟩ = none :=
  @claim7_invalid_key [("bogus", FieldVal.str "v")] none ⟨none, none, none⟩
    "bogus" (by decide) (by decide)

theorem run_eq_runFrom {env : RunEnv} {p : String}
    (h : resolvedPath env = some p) : run env = runFrom env p := by
  unfold run
  unfold resolvedPath at h
  cases htn : env.templateName with
  | some name =>
    simp only [htn] at h
    simp only [htn, h]
  | none =>
    simp only [htn] at h
    simp only [htn, h]

/-- Claim C5 counterexample: with an empty api key and an unknown
template name, run fails with the unknown-template condition, not the
missing-credential condition — template resolution runs before the
credential check. -/
theorem claim5_counterexample :
    (RunEnv.mk { DEFAULT_CONFIG with templates := [("default", "p")] }
        (some "nope") (fun _ => true) (fun _ => []) ("x".data)
        (fun _ => some ("1. a".data))).config.OPENAI_API_KEY = ""
    ∧ run (RunEnv.mk { DEFAULT_CONFIG with templates := [("default", "p")] }
        (some "nope") (fun _ => true) (fun _ => []) ("x".data)
        (fun _ => some ("1. a".data))) = RunResult.errUnknownTemplate
    ∧ run (RunEnv.mk { DEFAULT_CONFIG with templates := [("default", "p")] }
        (some "nope") (fun _ => true) (fun _ => []) ("x".data)
        (fun _ => some ("1. a".data))) ≠ RunResult.errMissingApiKey := by
  refine ⟨rfl, by decide, by decide⟩

/-- Claim C5 (amended): the missing-credential and missing-model checks
run only after the template is resolved and its file found: for every
invocation whose template resolves to an existing file, an empty api
key fails with the missing-credential condition, and a non-empty api
key with an empty model fails with the missing-model condition. -/
theorem claim5_amended (env : RunEnv) (p : String)
    (hres : resolvedPath env = some p) (hex : env.fileExists p = true) :
    (env.config.OPENAI_API_KEY = "" → run env = RunResult.errMissingApiKey)
    ∧ (env.config.OPENAI_API_KEY ≠ "" → env.config.model = "" →
        run env = RunResult.errMissingModel) := by
  rw [run_eq_runFrom hres]
  unfold runFrom
  rw [hex]
  constructor
  · intro hk
    rw [if_neg (by simp), if_pos hk]
  · intro hk hm
    rw [if_neg (by simp), if_neg hk, if_pos hm]

/-- Claim C5 witness: the amended statement evaluated at a resolvable
default template with an empty api key, and at a non-empty key with an
empty model. -/
theorem claim5_witness :
    run (RunEnv.mk DEFAULT_CONFIG none (fun _ => true) (fun _ => [])
        ("x".data) (fun _ => none)) = RunResult.errMissingApiKey
    ∧ run (RunEnv.mk { DEFAULT_CONFIG with OPENAI_API_KEY := "k", model := "" }
        none (fun _ => true) (fun _ => []) ("x".data) (fun _ => none))
      = RunResult.errMissingModel :=
  ⟨(claim5_amended (RunEnv.mk DEFAULT_CONFIG none (fun _ => true) (fun _ => [])
      ("x".data) (fun _ => none)) defaultTemplatePath (by decide) rfl).1 rfl,
   (claim5_amended (RunEnv.mk
      { DEFAULT_CONFIG with OPENAI_API_KEY := "k", model := "" }
      none (fun _ => true) (fun _ => []) ("x".data) (fun _ => none))
      defaultTemplatePath (by decide) rfl).2 (by decide) rfl⟩

/-- Claim C9: whenever the pipeline reaches the normalization stage and
the normalizer yields the empty list, run exits with the
unparsable-reply condition and nothing is written to stdout (no ok
outcome carrying output). -/
theorem claim9_unparsable (env : RunEnv) (p : String) (content : List Char)
    (hres : resolvedPath env = some p) (hex : env.fileExists p = true)
    (hkey : env.config.OPENAI_API_KEY ≠ "") (hmodel : env.config.model ≠ "")
    (hdiff : (jsTrim env.diff).isEmpty = false)
    (hchat : env.chat (renderedOf env p) = some content)
    (hcne : content.isEmpty = false)
    (hnorm : normalizeCommitSuggestions content = []) :
    run env = RunResult.errUnparsableReply
    ∧ ∀ out, run env ≠ RunResult.ok out := by
  have hmain : run env = RunResult.errUnparsableReply := by
    rw [run_eq_runFrom hres]
    unfold runFrom
    rw [hex]
    rw [if_neg (by simp), if_neg hkey, if_neg hmodel, if_neg (by simp [hdiff])]
    simp only [hchat]
    rw [if_neg (by simp [hcne]), if_pos (by simp [hnorm])]
  refine ⟨hmain, fun out he => ?_⟩
  rw [hmain] at he
  exact absurd he (by simp)

/-- Claim C9 witness: a pure-prose reply with no numbered or bulleted
lines drives a fully-provisioned run to the unparsable-reply exit. -/
theorem claim9_witness :
    run (RunEnv.mk { DEFAULT_CONFIG with OPENAI_API_KEY := "k" } none
        (fun _ => true) (fun _ => ("Summarize: \x7b\x7bdiff\x7d\x7d".data))
        ("+foo".data)
        (fun _ => some ("Sure! Here are some ideas: first, second, third.".data)))
      = RunResult.errUnparsableReply
    ∧ ∀ out, run (RunEnv.mk { DEFAULT_CONFIG with OPENAI_API_KEY := "k" } none
        (fun _ => true) (fun _ => ("Summarize: \x7b\x7bdiff\x7d\x7d".data))
        ("+foo".data)
        (fun _ => some ("Sure! Here are some ideas: first, second, third.".data)))
      ≠ RunResult.ok out :=
  claim9_unparsable
    (RunEnv.mk { DEFAULT_CONFIG with OPENAI_API_KEY := "k" } none
      (fun _ => true) (fun _ => ("Summarize: \x7b\x7bdiff\x7d\x7d".data))
      ("+foo".data)
      (fun _ => some ("Sure! Here are some ideas: first, second, third.".data)))
    defaultTemplatePath ("Sure! Here are some ideas: first, second, third.".data)
    (by decide) rfl (by decide) (by decide) (by decide) rfl (by decide) (by decide)

theorem splitAtFirst_some {pat : List Char} :
    ∀ {s b a : List Char}, splitAtFirst pat s = some (b, a) →
      s = b ++ (pat ++ a)
      ∧ ∀ b2 a2, s = b2 ++ (pat ++ a2) → b.length ≤ b2.length := by
  intro s
  induction s with
  | nil =>
    intro b a h
    unfold splitAtFirst at h
    by_cases hp : pat.isEmpty = true
    · rw [if_pos hp] at h
      simp only [Option.some.injEq, Prod.mk.injEq] at h
      obtain ⟨hb, ha⟩ := h
      subst hb
      subst ha
      have hpe : pat = [] := by simpa using hp
      exact ⟨by simp [hpe], fun b2 a2 _ => by simp⟩
    · rw [if_neg hp] at h
      exact absurd h (by simp)
  | cons c rest ih =>
    intro b a h
    unfold splitAtFirst at h
    by_cases hp : pat.isPrefixOf (c :: rest) = true
    · rw [if_pos hp] at h
      simp only [Option.some.injEq, Prod.mk.injEq] at h
      obtain ⟨hb, ha⟩ := h
      subst hb
      subst ha
      obtain ⟨t, ht⟩ := List.isPrefixOf_iff_prefix.mp hp
      refine ⟨?_, fun b2 a2 _ => by simp⟩
      rw [List.nil_append, ← ht, List.drop_left]
    · rw [if_neg hp] at h
      cases hrec : splitAtFirst pat rest with
      | none =>
        rw [hrec] at h
        exact absurd h (by simp)
      | some ba2 =>
        obtain ⟨b2, a2⟩ := ba2
        rw [hrec] at h
        simp only [Option.some.injEq, Prod.mk.injEq] at h
        obtain ⟨hb, ha⟩ := h
        subst hb
        subst ha
        obtain ⟨hdec, hmin⟩ := ih hrec
        refine ⟨by rw [List.cons_append, ← hdec], ?_⟩
        intro b3 a3 heq
        cases b3 with
        | nil =>
          simp only [List.nil_append] at heq
          exact absurd (List.isPrefixOf_iff_prefix.mpr ⟨a3, heq.symm⟩) (by simp [hp])
        | cons c3 b4 =>
          simp only [List.cons_append] at heq
          injection heq with h1 h2
          simpa using hmin b4 a3 h2

theorem splitAtFirst_none {pat : List Char} :
    ∀ {s : List Char}, splitAtFirst pat s = none → ∀ b a, s ≠ b ++ (pat ++ a) := by
  intro s
  induction s with
  | nil =>
    intro h b a heq
    unfold splitAtFirst at h
    by_cases hp : pat.isEmpty = true
    · rw [if_pos hp] at h
      exact absurd h (by simp)
    · have h1 := List.append_eq_nil.mp heq.symm
      have h2 := List.append_eq_nil.mp h1.2
      rw [h2.1] at hp
      exact hp rfl
  | cons c rest ih =>
    intro h b a heq
    unfold splitAtFirst at h
    by_cases hp : pat.isPrefixOf (c :: rest) = true
    · rw [if_pos hp] at h
      exact absurd h (by simp)
    · rw [if_neg hp] at h
      cases hrec : splitAtFirst pat rest with
      | some ba =>
        obtain ⟨b1, a1⟩ := ba
        rw [hrec] at h
        exact absurd h (by simp)
      | none =>
        cases b with
        | nil =>
          simp only [List.nil_append] at heq
          exact hp (List.isPrefixOf_iff_prefix.mpr ⟨a, heq.symm⟩)
        | cons cb tb =>
          simp only [List.cons_append] at heq
          injection heq with h1 h2
          exact ih hrec tb a h2

/-- Claim C4 counterexample: a diff equal to the dollar-ampersand
pattern is not inserted verbatim — the JavaScript replacement
substitutes the matched placeholder for it, so the rendered prompt
differs from the verbatim rule the claim states. -/
theorem claim4_counterexample :
    jsStringReplace ("x\x7b\x7bdiff\x7d\x7dy".data) diffToken ("$&".data)
      = ("x\x7b\x7bdiff\x7d\x7dy".data)
    ∧ replaceFirstVerbatim ("x\x7b\x7bdiff\x7d\x7dy".data) diffToken ("$&".data)
      = ("x$&y".data)
    ∧ jsStringReplace ("x\x7b\x7bdiff\x7d\x7dy".data) diffToken ("$&".data)
      ≠ replaceFirstVerbatim ("x\x7b\x7bdiff\x7d\x7dy".data) diffToken ("$&".data) := by
  refine ⟨by decide, by decide, by decide⟩

/-- Claim C4 (amended): rendering replaces exactly the first occurrence
of the placeholder token — the part before the match contains no
occurrence, and the part after it is left untouched, so placeholder-like
substrings inside the diff are never re-substituted — and the diff text
is inserted verbatim provided it contains no dollar character; a dollar
character engages the JavaScript replacement patterns instead. -/
theorem claim4_amended :
    (∀ template diff, '$' ∉ diff →
      jsStringReplace template diffToken diff
        = replaceFirstVerbatim template diffToken diff)
    ∧ (∀ s b a, splitAtFirst diffToken s = some (b, a) →
        s = b ++ (diffToken ++ a)
        ∧ ∀ b2 a2, s = b2 ++ (diffToken ++ a2) → b.length ≤ b2.length)
    ∧ (∀ s, splitAtFirst diffToken s = none → ∀ b a, s ≠ b ++ (diffToken ++ a)) := by
  refine ⟨?_, ?_, ?_⟩
  · intro template diff hnd
    unfold jsStringReplace replaceFirstVerbatim
    rcases hs : splitAtFirst diffToken template with _ | ⟨b, a⟩
    · simp only [hs]
    · simp only [hs]
      rw [getSubstitution_no_dollar _ _ _ hnd]
  · intro s b a h
    exact splitAtFirst_some h
  · intro s h b a
    exact splitAtFirst_none h b a

/-- Claim C4 witness: the amended statement evaluated at a template
with two occurrences of the placeholder and a dollar-free diff. -/
theorem claim4_witness :
    jsStringReplace ("a\x7b\x7bdiff\x7d\x7db\x7b\x7bdiff\x7d\x7dc".data)
        diffToken ("D".data)
      = replaceFirstVerbatim ("a\x7b\x7bdiff\x7d\x7db\x7b\x7bdiff\x7d\x7dc".data)
        diffToken ("D".data)
    ∧ ("a\x7b\x7bdiff\x7d\x7db\x7b\x7bdiff\x7d\x7dc".data
        : List Char) = ("a".data) ++ (diffToken ++ ("b\x7b\x7bdiff\x7d\x7dc".data)) :=
  ⟨claim4_amended.1 _ _ (by decide),
   (claim4_amended.2.1 _ _ _ (by decide)).1⟩

/-- Claim C3 counterexample: the source regex allows the whitespace
around the separator to be absent, so a line with no whitespace after
the separator, and a line with whitespace between the digits and the
separator, are both captured by the code although the claimed rule
(digits, separator, whitespace, content) rejects them. -/
theorem claim3_counterexample :
    numberedCapture ("1.fix bug".data) = some ("fix bug".data)
    ∧ specNumberedCapture ("1.fix bug".data) = none
    ∧ numberedCapture ("1 . x".data) = some ("x".data)
    ∧ specNumberedCapture ("1 . x".data) = none
    ∧ normalizeCommitSuggestions ("1.fix bug".data) = [("fix bug".data)] := by
  refine ⟨by decide, by decide, by decide, by decide, by decide⟩

/-- Claim C3 (amended): on the trimmed lines the extraction phase
processes, a line is captured as a numbered item exactly when it begins
with one or more digits, then optional whitespace, then a dot or
closing parenthesis, then optional whitespace, then nonempty content,
which is captured; every line of the preprocessing phase is trimmed;
bulleted extraction is used exactly when numbered extraction captured
nothing; and a numbered line need not be contiguous with the others —
the line starting with the number ten is captured with its content. -/
theorem claim3_amended :
    (∀ l, jsTrim l = l → numberedCapture l = amendedNumberedCapture l)
    ∧ (∀ raw l, l ∈ linesOf raw → jsTrim l = l)
    ∧ (∀ raw, (fromNumberedOf raw).isEmpty = false →
        normalizeCommitSuggestions raw
          = ((fromNumberedOf raw).map cleanMessage).filter (fun m => !m.isEmpty))
    ∧ (∀ raw, (fromNumberedOf raw).isEmpty = true →
        normalizeCommitSuggestions raw
          = ((fromBulletsOf raw).map cleanMessage).filter (fun m => !m.isEmpty))
    ∧ numberedCapture ("10) fix bug".data) = some ("fix bug".data) := by
  refine ⟨?_, ?_, ?_, ?_, by decide⟩
  · intro l htr
    exact numberedCapture_eq_amended htr
  · intro raw l hl
    exact (mem_linesOf_facts hl).1
  · intro raw hne
    unfold normalizeCommitSuggestions candidatesOf
    rw [if_neg (by simp [hne])]
  · intro raw hemp
    unfold normalizeCommitSuggestions candidatesOf
    rw [if_pos hemp]

/-- Claim C3 witness: the amended per-line rule evaluated on the two
lines of the counterexample and a bulleted fallback reply. -/
theorem claim3_witness :
    numberedCapture ("1.fix bug".data) = amendedNumberedCapture ("1.fix bug".data)
    ∧ normalizeCommitSuggestions ("1. one\n- two".data)
        = ((fromNumberedOf ("1. one\n- two".data)).map cleanMessage).filter
            (fun m => !m.isEmpty)
    ∧ normalizeCommitSuggestions ("- one\n* two".data)
        = ((fromBulletsOf ("- one\n* two".data)).map cleanMessage).filter
            (fun m => !m.isEmpty) :=
  ⟨claim3_amended.1 ("1.fix bug".data) (by decide),
   claim3_amended.2.2.1 ("1. one\n- two".data) (by decide),
   claim3_amended.2.2.2.1 ("- one\n* two".data) (by decide)⟩

/-- Claim C8 counterexample: the normalizer is not idempotent on its
own output — a message that keeps a trailing quote after the first
cleanup, here from the raw line with a quote-space-quote tail, loses
that quote when the renumbered join is normalized again. -/
theorem claim8_counterexample :
    normalizeCommitSuggestions ("1. ab\" \"".data) = [("ab\"".data)]
    ∧ joinNumbered (normalizeCommitSuggestions ("1. ab\" \"".data))
        = ("1. ab\"".data)
    ∧ normalizeCommitSuggestions (joinNumbered
        (normalizeCommitSuggestions ("1. ab\" \"".data))) = [("ab".data)]
    ∧ normalizeCommitSuggestions (joinNumbered
        (normalizeCommitSuggestions ("1. ab\" \"".data)))
      ≠ normalizeCommitSuggestions ("1. ab\" \"".data) := by
  refine ⟨by decide, by decide, by decide, by decide⟩

/-- Claim C8 (amended): the normalizer is idempotent on its own output
whenever every produced message is a fixed point of the per-message
cleanup — equivalently, begins and ends with neither a quote character
nor whitespace: renumbering the k messages one to k, joining with
newlines and normalizing again yields the same k messages in order.
The counterexample shows the unrestricted claim fails when a message
retains a boundary quote character. -/
theorem claim8_amended {raw : List Char}
    (h : ∀ m ∈ normalizeCommitSuggestions raw, cleanMessage m = m) :
    normalizeCommitSuggestions (joinNumbered (normalizeCommitSuggestions raw))
      = normalizeCommitSuggestions raw := by
  unfold joinNumbered
  apply normalize_numberLines
  intro m hm
  obtain ⟨h1, h2⟩ := mem_normalize_facts hm
  have hc := h m hm
  have hfix : jsTrim (cleanMessage m) = cleanMessage m :=
    jsTrim_idem (stripQuoteRuns m)
  have htr : jsTrim m = m := by
    calc jsTrim m = jsTrim (cleanMessage m) := by rw [hc]
      _ = cleanMessage m := hfix
      _ = m := hc
  exact ⟨h1, h2, htr, hc⟩

/-- Claim C8 witness: the amended idempotence evaluated on a two-item
numbered reply whose messages carry no boundary quotes. -/
theorem claim8_witness :
    (∀ m ∈ normalizeCommitSuggestions ("1. feat: x\n2. fix: y".data),
      cleanMessage m = m)
    ∧ normalizeCommitSuggestions (joinNumbered
        (normalizeCommitSuggestions ("1. feat: x\n2. fix: y".data)))
      = normalizeCommitSuggestions ("1. feat: x\n2. fix: y".data) :=
  ⟨by decide, claim8_amended (by decide)⟩
